import Mathlib

/-!
Verification of dataset-utility and run-metadata-logging components of the
composer repository slice, against a shallow embedding of the Python source
in `composer/datasets/utils.py` and the behaviour exercised by
`tests/loggers/test_mosaicml_logger.py`.
-/

set_option autoImplicit false

/-! ### Substring containment, mirroring the Python `in` operator on strings -/

/-- Does the needle occur as a contiguous block at the head of the haystack? -/
def subAt : List Char → List Char → Bool
  | [], _ => true
  | _ :: _, [] => false
  | a :: ns, b :: hs => a == b && subAt ns hs

/-- Does the needle occur anywhere inside the haystack? -/
def hasSub (needle : List Char) : List Char → Bool
  | [] => needle.isEmpty
  | c :: hs => subAt needle (c :: hs) || hasSub needle hs

/-- The Python expression `needle in hay` for strings. -/
def strContains (hay needle : String) : Bool :=
  hasSub needle.data hay.data

/-! ### Embedding of `MultiTokenEOSCriteria` from `composer/datasets/utils.py`.

The third-party tokenizer is abstracted as a pair of functions; the criteria
object itself carries exactly the fields assigned in `__init__`. -/

/-- Abstract third-party tokenizer: `encode` and (batchwise) `decode`. -/
structure Tokenizer where
  encode : String → List Int
  decode : List Int → String

/-- State of a `MultiTokenEOSCriteria` instance: the fields set in
`__init__` and mutated by `__call__`. -/
structure MultiTokenEOSCriteria where
  done_tracker : List Bool
  stop_sequence : String
  stop_sequence_ids : List Int
  stop_sequence_id_len : Nat

/-- The constructor `MultiTokenEOSCriteria.__init__`: the done tracker starts
all false with one slot per batch element, and the lookback length is the
encoded stop sequence token length plus 2. -/
def mkMultiTokenEOSCriteria (stop_sequence : String) (tokenizer : Tokenizer)
    (batch_size : Nat) : MultiTokenEOSCriteria :=
  let ids := tokenizer.encode stop_sequence
  { done_tracker := List.replicate batch_size false
    stop_sequence := stop_sequence
    stop_sequence_ids := ids
    stop_sequence_id_len := ids.length + 2 }

/-- The Python slice `l[-n:]` (for the list of token ids of one sequence). -/
def pySliceLast (n : Nat) (l : List Int) : List Int :=
  if n = 0 then l else l.drop (l.length - n)

/-- The loop body of `MultiTokenEOSCriteria.__call__` over the done tracker,
carrying the running index `i`.  When `i` falls outside the decoded batch the
code sets that single slot to `true` and then executes `break`, leaving the
remaining slots untouched; when the slot is already done it is kept; otherwise
it is set to whether the decoded lookback text contains the stop string. -/
def updateDone (stop : String) (texts : List String) : Nat → List Bool → List Bool
  | _, [] => []
  | i, d :: rest =>
    if texts.length ≤ i then
      true :: rest
    else if d then
      d :: updateDone stop texts (i + 1) rest
    else
      strContains (texts.getD i "") stop :: updateDone stop texts (i + 1) rest

/-- `MultiTokenEOSCriteria.__call__`: slice the last `stop_sequence_id_len`
token ids of every sequence, decode them, update the done tracker, and return
`False not in self.done_tracker`. -/
def criteriaCall (tokenizer : Tokenizer) (c : MultiTokenEOSCriteria)
    (input_ids : List (List Int)) : MultiTokenEOSCriteria × Bool :=
  let lookback_ids_batch := input_ids.map (pySliceLast c.stop_sequence_id_len)
  let lookback_tokens_batch := lookback_ids_batch.map tokenizer.decode
  let new_done := updateDone c.stop_sequence lookback_tokens_batch 0 c.done_tracker
  ({ c with done_tracker := new_done }, !(new_done.contains false))

/-- A sequence of `__call__` invocations from a given state. -/
def runCalls (tokenizer : Tokenizer) (c : MultiTokenEOSCriteria) :
    List (List (List Int)) → MultiTokenEOSCriteria
  | [] => c
  | b :: bs => runCalls tokenizer (criteriaCall tokenizer c b).1 bs

/-- A concrete degenerate tokenizer used for closed evaluations. -/
def constTok : Tokenizer :=
  { encode := fun _ => [0], decode := fun _ => "" }

/-! ### Embedding of `add_vision_dataset_transform` from `composer/datasets/utils.py`.

A torchvision transform is either the distinguished `ToTensor` transform, an
opaque basic transform (identified by a tag), or a `Compose` of a list of
transforms.  The `dataset.transform` field is an `Option` of this type; the
function returns the value the field holds after the in-place mutation. -/

/-- A torchvision transform as far as `add_vision_dataset_transform` can
distinguish them. -/
inductive TVTransform where
  | toTensor : TVTransform
  | basic : Nat → TVTransform
  | compose : List TVTransform → TVTransform

/-- The check `isinstance(t, transforms.ToTensor)`. -/
def isToTensor : TVTransform → Bool
  | TVTransform.toTensor => true
  | _ => false

/-- Python `list.insert(i, x)`: insert at `i`, clamping `i` to the length. -/
def pyInsert {α : Type} (l : List α) (i : Nat) (x : α) : List α :=
  l.take i ++ x :: l.drop i

/-- `add_vision_dataset_transform`: the value of `dataset.transform` after the
call.  The loop searching for the first `ToTensor` inside a `Compose` is
`List.findIdx`, which returns the list length when no element matches, exactly
as the Python loop leaves `insertion_index = len(...)`. -/
def add_vision_dataset_transform :
    Option TVTransform → TVTransform → Bool → TVTransform
  | none, t, _ => t
  | some (TVTransform.compose ts), t, is_tensor_transform =>
    let insertion_index := ts.findIdx isToTensor
    let insertion_index :=
      if is_tensor_transform then insertion_index + 1 else insertion_index
    TVTransform.compose (pyInsert ts insertion_index t)
  | some cur, t, is_tensor_transform =>
    if isToTensor cur && !is_tensor_transform then TVTransform.compose [t, cur]
    else TVTransform.compose [cur, t]

/-! ### Embedding of `pil_image_collate` from `composer/datasets/utils.py`.

A PIL image is either a single-channel (grayscale) pixel grid or a
multi-channel image stored, as `np.asarray` yields it, in height by width by
channel layout.  The shape bookkeeping of the numpy pipeline
(`expand_dims` then `rollaxis(_, 2)`) turns both into a channel by height by
width array; `imgShape` and `imgData` give that shape and its row-major
flattening.  Only the image half of each sample is modelled; the assertion
failures of the source become `Except.error` values carrying the assertion
message. -/

/-- A PIL image as seen by the collate function. -/
inductive PImg where
  | gray : Nat → Nat → List (List Nat) → PImg
  | color : Nat → Nat → Nat → List (List (List Nat)) → PImg

/-- PIL `img.size`, which is `(width, height)`. -/
def pilSize : PImg → Nat × Nat
  | PImg.gray h w _ => (w, h)
  | PImg.color _ h w _ => (w, h)

/-- Shape of `np.rollaxis(np.expand_dims?(np.asarray(img)), 2)`: channel,
height, width. -/
def imgShape : PImg → Nat × Nat × Nat
  | PImg.gray h w _ => (1, h, w)
  | PImg.color c h w _ => (c, h, w)

/-- Row-major flattening of a single-channel grid. -/
def grayFlat (px : List (List Nat)) : List Nat := px.flatten

/-- One channel of a height by width by channel grid, flattened row-major. -/
def colorChan (px : List (List (List Nat))) (ch : Nat) : List Nat :=
  (px.map (fun row => row.map (fun p => p.getD ch 0))).flatten

/-- Channel-major flattening of the rolled array for a multi-channel image. -/
def chwFlat (c : Nat) (px : List (List (List Nat))) : List Nat :=
  ((List.range c).map (colorChan px)).flatten

/-- Row-major data of the rolled channel by height by width array. -/
def imgData : PImg → List Nat
  | PImg.gray _ _ px => grayFlat px
  | PImg.color c _ _ px => chwFlat c px

/-- `np.resize(flat, n)` on flattened data: the source repeats cyclically to
fill the requested size. -/
def np_resize (flat : List Nat) (n : Nat) : List Nat :=
  (List.range n).map (fun i => flat.getD (i % flat.length) 0)

/-- The body of the per-image loop of `pil_image_collate`: `h` and `w` come
from the first image of the batch.  A channel count other than 3 must be 1
(else the assertion `unexpected shape` fires), in which case `np.resize`
fills the 3 by `h` by `w` slot cyclically from the single channel; a
3-channel image must match the slot shape exactly (else the assertion
`shape mismatch` fires). -/
def collateImage (h w : Nat) (img : PImg) : Except String (List Nat) :=
  let s := imgShape img
  if s.1 ≠ 3 then
    if s.1 = 1 then Except.ok (np_resize (imgData img) (3 * (h * w)))
    else Except.error "unexpected shape"
  else
    if s.2.1 = h ∧ s.2.2 = w then Except.ok (imgData img)
    else Except.error "shape mismatch"

/-- Sequential processing of the batch, stopping at the first assertion
failure, as the Python `for` loop does. -/
def collectImages (h w : Nat) : List PImg → Except String (List (List Nat))
  | [] => Except.ok []
  | img :: rest =>
    match collateImage h w img with
    | Except.error e => Except.error e
    | Except.ok x =>
      match collectImages h w rest with
      | Except.error e => Except.error e
      | Except.ok xs => Except.ok (x :: xs)

/-- `pil_image_collate`, restricted to the image tensor it builds: `w, h`
come from `imgs[0].size`, and each image is converted by the loop above.  An
empty batch fails on the `imgs[0]` lookup. -/
def pil_image_collate (batch : List PImg) : Except String (List (List Nat)) :=
  match batch with
  | [] => Except.error "empty batch"
  | img0 :: _ =>
    let wh := pilSize img0
    collectImages wh.2 wh.1 batch

/-- Did a fallible computation succeed (no assertion fired)? -/
def isOkE {ε α : Type} : Except ε α → Bool
  | Except.ok _ => true
  | Except.error _ => false

/-! ### Data model of run metadata, and the metadata formatter.

The code of `composer/loggers/mosaicml_logger.py` is absent from this slice
(only its test file is present), so the components below are modelled from
the specification of the metadata reporter. -/

mutual

/-- Modelled from the spec: a JSON-compatible metadata value of
`composer/loggers/mosaicml_logger.py` (absent from the slice) is a string,
number, boolean, nested mapping, or list, and a non-serializable tensor leaf
carries only its shape. -/
inductive MVal where
  | str : String → MVal
  | num : Int → MVal
  | flag : Bool → MVal
  | tensor : List Nat → MVal
  | dict : MFields → MVal
  | arr : MList → MVal

/-- Modelled from the spec: a metadata mapping, as an ordered list of
key/value fields. -/
inductive MFields where
  | nil : MFields
  | cons : String → MVal → MFields → MFields

/-- Modelled from the spec: a list of metadata values. -/
inductive MList where
  | nil : MList
  | cons : MVal → MList → MList

end

/-- Rendering of a tensor shape inside the placeholder string. -/
def shapeStr : List Nat → String
  | [] => ""
  | [n] => toString n
  | n :: rest => toString n ++ ", " ++ shapeStr rest

mutual

/-- Modelled from the spec: `format_data_to_json_serializable` of
`composer/loggers/mosaicml_logger.py` (absent from the slice).  Tensor leaves
become a descriptive string naming their shape, nested mappings and lists are
preserved structurally, and already-serializable leaves pass through. -/
def formatVal : MVal → MVal
  | MVal.tensor shape =>
    MVal.str ("Tensor of shape torch.Size([" ++ shapeStr shape ++ "])")
  | MVal.dict fs => MVal.dict (formatFields fs)
  | MVal.arr l => MVal.arr (formatItems l)
  | v => v

/-- Modelled from the spec: the formatter applied to every value of a
mapping. -/
def formatFields : MFields → MFields
  | MFields.nil => MFields.nil
  | MFields.cons k v r => MFields.cons k (formatVal v) (formatFields r)

/-- Modelled from the spec: the formatter applied to every item of a list. -/
def formatItems : MList → MList
  | MList.nil => MList.nil
  | MList.cons v r => MList.cons (formatVal v) (formatItems r)

end

/-! ### The metric filter of the metadata reporter. -/

/-- Modelled from the spec: glob-style pattern matching on keys, over the
character lists of the pattern and the key.  A star matches any (possibly
empty) run of characters, a question mark any single character, and any other
character only itself. -/
def globMatchL : List Char → List Char → Bool
  | [], [] => true
  | [], _ :: _ => false
  | '*' :: ps, s =>
    globMatchL ps s ||
      (match s with
       | [] => false
       | _ :: s2 => globMatchL ('*' :: ps) s2)
  | '?' :: _, [] => false
  | '?' :: ps, _ :: s2 => globMatchL ps s2
  | _ :: _, [] => false
  | c :: ps, d :: s2 => c == d && globMatchL ps s2

/-- Modelled from the spec: glob matching on strings. -/
def globMatch (pat key : String) : Bool :=
  globMatchL pat.data key.data

/-- Modelled from the spec: the metric filter of the metadata reporter keeps
exactly the keys matched by no pattern of the ignore-list; filtered-out
keys never reach the external registry call. -/
def filterIgnored (d : List (String × MVal)) (ignore : List String) :
    List (String × MVal) :=
  d.filter (fun kv => !(ignore.any (fun pat => globMatch pat kv.1)))

/-! ### The rank gate and the progress renderer of the metadata reporter. -/

/-- Modelled from the spec: the external call
`update_run_metadata(run_name, metadata)`, which merges the reported mapping
into the registry record of the run. -/
def updateRunMetadata (registry : List (String × MVal))
    (data : List (String × MVal)) : List (String × MVal) :=
  registry ++ data

/-- Modelled from the spec: one metadata-reporting event; the reporter makes
the external registry call only on the global rank-zero process, every other
rank performs no external reporting call. -/
def reportIfRankZero (rank : Nat) (data : List (String × MVal))
    (registry : List (String × MVal)) : List (String × MVal) :=
  if rank = 0 then updateRunMetadata registry data else registry

/-- Modelled from the spec: a whole run of reporting events on one process,
folded over the registry state. -/
def runReports (rank : Nat) (events : List (List (String × MVal)))
    (registry : List (String × MVal)) : List (String × MVal) :=
  events.foldl (fun reg d => reportIfRankZero rank d reg) registry

/-- The trainer timestamp fields the progress renderer reads. -/
structure TrainTimestamp where
  batch : Nat
  batch_in_epoch : Nat
  epoch : Nat

/-- The unit of the configured maximum duration. -/
inductive ProgressUnit where
  | token : ProgressUnit
  | batch : ProgressUnit
  | epoch : ProgressUnit

/-- Name of a unit inside the rendered progress string. -/
def unitName : ProgressUnit → String
  | ProgressUnit.token => "token"
  | ProgressUnit.batch => "batch"
  | ProgressUnit.epoch => "epoch"

/-- Modelled from the spec: the sub-progress fraction
`(batch_count - batch_in_epoch_count) / epoch_count`, computed with
truncating division, representing how many whole batches occur per epoch at
the current point. -/
def sub_progress_value (ts : TrainTimestamp) : Nat :=
  (ts.batch - ts.batch_in_epoch) / ts.epoch

/-- The bracketed progress string of the renderer. -/
def renderProgress (u : ProgressUnit) (cur total : Nat) : String :=
  "[" ++ unitName u ++ "=" ++ toString cur ++ "/" ++ toString total ++ "]"

/-- Modelled from the spec: the progress renderer of the metadata reporter of
`composer/loggers/mosaicml_logger.py` (absent from the slice).  It always
reports the bracketed progress string, and reports a sub-progress entry
exactly when the configured duration unit is epoch, the coarser-than-finest
unit. -/
def training_progress_metrics (ts : TrainTimestamp) (u : ProgressUnit)
    (cur total : Nat) : List (String × String) :=
  match u with
  | ProgressUnit.epoch =>
    [("training_progress", renderProgress u cur total),
     ("training_sub_progress", toString (sub_progress_value ts))]
  | _ => [("training_progress", renderProgress u cur total)]

/-! ### Theorems: the stop-sequence criterion (claims C1, C4, C10) -/

/-- Length is preserved by one pass of the done-tracker update loop. -/
theorem updateDone_length (stop : String) (texts : List String) :
    ∀ (done : List Bool) (k : Nat), (updateDone stop texts k done).length = done.length := by
  intro done
  induction done with
  | nil => intro k; rfl
  | cons d rest ih =>
    intro k
    simp only [updateDone]
    split
    · simp
    · split <;> simp [ih]

/-- Reading a mapped list below its length evaluates the function at the
entry. -/
theorem getD_map_lt {α β : Type} (f : α → β) (l : List α) (i : Nat) (h : i < l.length)
    (d : α) (d' : β) : (l.map f).getD i d' = f (l.getD i d) := by
  simp [List.getD_eq_getElem?_getD, List.getElem?_map, List.getElem?_eq_getElem h]

/-- On a batch at least as long as the remaining tracker, the update loop
keeps already-done slots and sets a pending slot to whether its decoded text
contains the stop string. -/
theorem updateDone_full_getD (stop : String) (texts : List String) :
    ∀ (done : List Bool) (k i : Nat), k + done.length ≤ texts.length → i < done.length →
      (updateDone stop texts k done).getD i false =
        (if done.getD i false then true else strContains (texts.getD (k + i) "") stop) := by
  intro done
  induction done with
  | nil => intro k i _ hi; simp at hi
  | cons d rest ih =>
    intro k i hk hi
    simp only [updateDone]
    rw [if_neg (by simp at hk; omega)]
    cases d with
    | true =>
      simp only [if_pos]
      cases i with
      | zero => simp
      | succ j =>
        simp only [List.getD_cons_succ]
        rw [ih (k + 1) j (by simp at hk ⊢; omega) (by simp at hi; omega)]
        have : k + 1 + j = k + (j + 1) := by omega
        rw [this]
    | false =>
      simp only [Bool.false_eq_true, if_false]
      cases i with
      | zero => simp
      | succ j =>
        simp only [List.getD_cons_succ]
        rw [ih (k + 1) j (by simp at hk ⊢; omega) (by simp at hi; omega)]
        have : k + 1 + j = k + (j + 1) := by omega
        rw [this]

/-- A done slot stays done across one pass of the update loop, in every
branch, including the early-exit branch for a short batch. -/
theorem updateDone_mono (stop : String) (texts : List String) :
    ∀ (done : List Bool) (k i : Nat), done.getD i false = true →
      (updateDone stop texts k done).getD i false = true := by
  intro done
  induction done with
  | nil => intro k i h; simp [List.getD] at h
  | cons d rest ih =>
    intro k i h
    simp only [updateDone]
    split
    · cases i with
      | zero => simp
      | succ j => simpa using h
    · cases d with
      | true =>
        simp only [if_pos]
        cases i with
        | zero => simp
        | succ j => simpa using ih (k + 1) j (by simpa using h)
      | false =>
        simp only [Bool.false_eq_true, if_false]
        cases i with
        | zero => simp at h
        | succ j => simpa using ih (k + 1) j (by simpa using h)

/-- `False not in l` is the same as every entry of `l` being true. -/
theorem not_contains_false_eq_all (l : List Bool) :
    (!(l.contains false)) = l.all (fun b => b) := by
  induction l with
  | nil => rfl
  | cons b rest ih => cases b <;> simp_all

/-- C4: on a full batch, `MultiTokenEOSCriteria.__call__` decodes the last
`N` token ids of each sequence with `N` the encoded stop-sequence token
length plus 2, keeps every already-done slot, marks a pending slot done
exactly when its decoded text contains the stop string, and returns true
precisely when every slot of the updated tracker is true. -/
theorem C4_full_batch_call (tokenizer : Tokenizer) (c : MultiTokenEOSCriteria)
    (input_ids : List (List Int))
    (hlen : c.stop_sequence_id_len = (tokenizer.encode c.stop_sequence).length + 2)
    (hfull : input_ids.length = c.done_tracker.length) :
    ((criteriaCall tokenizer c input_ids).1.done_tracker.length = c.done_tracker.length) ∧
    (∀ i, i < c.done_tracker.length →
      (criteriaCall tokenizer c input_ids).1.done_tracker.getD i false =
        (if c.done_tracker.getD i false then true
         else strContains
           (tokenizer.decode (pySliceLast ((tokenizer.encode c.stop_sequence).length + 2)
             (input_ids.getD i [])))
           c.stop_sequence)) ∧
    ((criteriaCall tokenizer c input_ids).2 =
      (criteriaCall tokenizer c input_ids).1.done_tracker.all (fun b => b)) := by
  refine ⟨?_, ?_, ?_⟩
  · simp [criteriaCall, updateDone_length]
  · intro i hi
    simp only [criteriaCall]
    rw [updateDone_full_getD _ _ _ 0 i (by simp [hfull]) hi]
    rw [Nat.zero_add]
    rw [getD_map_lt tokenizer.decode _ i (by simpa [hfull] using hi) ([] : List Int) ""]
    rw [getD_map_lt (pySliceLast c.stop_sequence_id_len) input_ids i
      (by rw [hfull]; exact hi) ([] : List Int) ([] : List Int)]
    rw [hlen]
  · simp only [criteriaCall]
    rw [not_contains_false_eq_all]

/-- C4 witness: the full-batch theorem evaluated at a concrete one-element
batch with the degenerate tokenizer. -/
theorem C4_full_batch_call_witness :
    ((criteriaCall constTok (mkMultiTokenEOSCriteria "ab" constTok 1)
        [[1, 2, 3]]).1.done_tracker.length
      = (mkMultiTokenEOSCriteria "ab" constTok 1).done_tracker.length) ∧
    (∀ i, i < (mkMultiTokenEOSCriteria "ab" constTok 1).done_tracker.length →
      (criteriaCall constTok (mkMultiTokenEOSCriteria "ab" constTok 1)
          [[1, 2, 3]]).1.done_tracker.getD i false =
        (if (mkMultiTokenEOSCriteria "ab" constTok 1).done_tracker.getD i false then true
         else strContains
           (constTok.decode (pySliceLast
             ((constTok.encode (mkMultiTokenEOSCriteria "ab" constTok 1).stop_sequence).length + 2)
             ([[1, 2, 3]].getD i [])))
           (mkMultiTokenEOSCriteria "ab" constTok 1).stop_sequence)) ∧
    ((criteriaCall constTok (mkMultiTokenEOSCriteria "ab" constTok 1) [[1, 2, 3]]).2 =
      (criteriaCall constTok (mkMultiTokenEOSCriteria "ab" constTok 1)
        [[1, 2, 3]]).1.done_tracker.all (fun b => b)) :=
  C4_full_batch_call constTok (mkMultiTokenEOSCriteria "ab" constTok 1) [[1, 2, 3]] rfl rfl

/-- A done slot survives a single `__call__`. -/
theorem criteriaCall_mono (tokenizer : Tokenizer) (c : MultiTokenEOSCriteria)
    (b : List (List Int)) (i : Nat) (h : c.done_tracker.getD i false = true) :
    (criteriaCall tokenizer c b).1.done_tracker.getD i false = true := by
  simp only [criteriaCall]
  exact updateDone_mono _ _ _ 0 i h

/-- C10: the done tracker is monotone.  Once a slot is true it remains true
after any further sequence of `__call__` invocations; no invocation resets a
done flag to false. -/
theorem C10_done_tracker_monotone (tokenizer : Tokenizer) (c : MultiTokenEOSCriteria)
    (calls : List (List (List Int))) (i : Nat)
    (h : c.done_tracker.getD i false = true) :
    (runCalls tokenizer c calls).done_tracker.getD i false = true := by
  induction calls generalizing c with
  | nil => exact h
  | cons b bs ih => exact ih _ (criteriaCall_mono tokenizer c b i h)

/-- C10 witness: monotonicity evaluated at a concrete state with slot 0
already done and one further call. -/
theorem C10_done_tracker_monotone_witness :
    (⟨[true, false], "ab", [0], 3⟩ : MultiTokenEOSCriteria).done_tracker.getD 0 false = true ∧
    (runCalls constTok (⟨[true, false], "ab", [0], 3⟩ : MultiTokenEOSCriteria)
      [[[1], [2]]]).done_tracker.getD 0 false = true :=
  ⟨rfl, C10_done_tracker_monotone constTok (⟨[true, false], "ab", [0], 3⟩ : MultiTokenEOSCriteria)
    [[[1], [2]]] 0 rfl⟩

/-- C1: evaluation of the partial-batch path.  With batch size 3 and a call
carrying a single sequence, the loop sets only the first out-of-range slot
(index 1) to true and then breaks, leaving index 2 false, so the call cannot
report completion; the claim (and the comment in the source) say every
out-of-range index becomes done. -/
theorem C1_partial_batch_left_unset :
    ((criteriaCall constTok (mkMultiTokenEOSCriteria "STOP" constTok 3)
        [[1, 2, 3, 4]]).1.done_tracker = [false, true, false]) ∧
    ((criteriaCall constTok (mkMultiTokenEOSCriteria "STOP" constTok 3)
        [[1, 2, 3, 4]]).1.done_tracker.getD 2 false = false) ∧
    ((criteriaCall constTok (mkMultiTokenEOSCriteria "STOP" constTok 3)
        [[1, 2, 3, 4]]).2 = false) := by decide

/-! ### Theorems: the dataset transform splicer (claim C3) -/


theorem findIdx_eq_length_of_none {α : Type} (p : α → Bool) :
    ∀ (l : List α), (∀ a ∈ l, p a = false) → l.findIdx p = l.length := by
  intro l
  induction l with
  | nil => intro _; rfl
  | cons a rest ih =>
    intro h
    rw [List.findIdx_cons]
    rw [h a (List.mem_cons_self a rest)]
    simp [ih fun b hb => h b (List.mem_cons_of_mem a hb)]

theorem findIdx_first_match {α : Type} (p : α → Bool) :
    ∀ (pre : List α) (x : α) (post : List α), (∀ a ∈ pre, p a = false) → p x = true →
      (pre ++ x :: post).findIdx p = pre.length := by
  intro pre
  induction pre with
  | nil => intro x post _ hx; simp [List.findIdx_cons, hx]
  | cons a rest ih =>
    intro x post h hx
    rw [List.cons_append, List.findIdx_cons]
    rw [h a (List.mem_cons_self a rest)]
    simp [ih x post (fun b hb => h b (List.mem_cons_of_mem a hb)) hx]

theorem pyInsert_at_append {α : Type} (a b : List α) (x : α) :
    pyInsert (a ++ b) a.length x = a ++ x :: b := by
  unfold pyInsert
  rw [List.take_left, List.drop_left]

theorem pyInsert_ge {α : Type} (l : List α) (i : Nat) (x : α) (h : l.length ≤ i) :
    pyInsert l i x = l ++ [x] := by
  unfold pyInsert
  rw [List.take_of_length_le h, List.drop_eq_nil_of_le h]

/-- C3: placement of a new transform.  An empty pipeline becomes the new
transform; in a composed pipeline whose first tensor-conversion transform
splits it as pre ++ ToTensor :: post, the new transform lands immediately
before the ToTensor when it is not a tensor transform and immediately after
it otherwise; a composed pipeline without ToTensor gets the new transform
appended; a single ToTensor is wrapped into an ordered pair in the same
relative order; any other single transform gets the new transform appended
after it. -/
theorem C3_add_vision_dataset_transform :
    (∀ (t : TVTransform) (itt : Bool), add_vision_dataset_transform none t itt = t) ∧
    (∀ (pre post : List TVTransform) (t : TVTransform) (itt : Bool),
        (∀ a ∈ pre, isToTensor a = false) →
        add_vision_dataset_transform
            (some (TVTransform.compose (pre ++ TVTransform.toTensor :: post))) t itt
          = TVTransform.compose
              (if itt then pre ++ TVTransform.toTensor :: t :: post
               else pre ++ t :: TVTransform.toTensor :: post)) ∧
    (∀ (ts : List TVTransform) (t : TVTransform) (itt : Bool),
        (∀ a ∈ ts, isToTensor a = false) →
        add_vision_dataset_transform (some (TVTransform.compose ts)) t itt
          = TVTransform.compose (ts ++ [t])) ∧
    (∀ (t : TVTransform) (itt : Bool),
        add_vision_dataset_transform (some TVTransform.toTensor) t itt
          = (if itt then TVTransform.compose [TVTransform.toTensor, t]
             else TVTransform.compose [t, TVTransform.toTensor])) ∧
    (∀ (n : Nat) (t : TVTransform) (itt : Bool),
        add_vision_dataset_transform (some (TVTransform.basic n)) t itt
          = TVTransform.compose [TVTransform.basic n, t]) := by
  refine ⟨?_, ?_, ?_, ?_, ?_⟩
  · intro t itt; rfl
  · intro pre post t itt h
    simp only [add_vision_dataset_transform]
    rw [findIdx_first_match isToTensor pre TVTransform.toTensor post h rfl]
    cases itt with
    | false =>
      rw [if_neg Bool.false_ne_true]
      rw [pyInsert_at_append pre (TVTransform.toTensor :: post) t]
      simp
    | true =>
      rw [if_pos rfl]
      have hsplit : pre ++ TVTransform.toTensor :: post
          = (pre ++ [TVTransform.toTensor]) ++ post := by simp
      have hlen : pre.length + 1 = (pre ++ [TVTransform.toTensor]).length := by simp
      rw [hsplit, hlen, pyInsert_at_append (pre ++ [TVTransform.toTensor]) post t]
      simp
  · intro ts t itt h
    simp only [add_vision_dataset_transform]
    rw [findIdx_eq_length_of_none isToTensor ts h]
    cases itt with
    | false => rw [if_neg Bool.false_ne_true, pyInsert_ge ts ts.length t (Nat.le_refl _)]
    | true => rw [if_pos rfl, pyInsert_ge ts (ts.length + 1) t (Nat.le_succ _)]
  · intro t itt
    cases itt with
    | false => rfl
    | true => rfl
  · intro n t itt
    cases itt with
    | false => rfl
    | true => rfl

/-- C3 witness: the composed-pipeline clause evaluated at the concrete
pipeline Compose [basic 0, ToTensor] and a non-tensor transform. -/
theorem C3_add_vision_dataset_transform_witness :
    add_vision_dataset_transform
        (some (TVTransform.compose ([TVTransform.basic 0] ++ TVTransform.toTensor :: [])))
        (TVTransform.basic 7) false
      = TVTransform.compose
          (if false then [TVTransform.basic 0] ++ TVTransform.toTensor :: TVTransform.basic 7 :: []
           else [TVTransform.basic 0] ++ TVTransform.basic 7 :: TVTransform.toTensor :: []) :=
  C3_add_vision_dataset_transform.2.1 [TVTransform.basic 0] [] (TVTransform.basic 7) false
    (by intro a ha; simp at ha; subst ha; rfl)

/-! ### Theorems: the batch collator (claims C5, C6) -/


theorem flatten_length_of_uniform (w : Nat) :
    ∀ (px : List (List Nat)), (∀ row ∈ px, row.length = w) →
      px.flatten.length = px.length * w := by
  intro px
  induction px with
  | nil => intro _; simp
  | cons row rest ih =>
    intro h
    simp only [List.flatten_cons, List.length_append, List.length_cons]
    rw [h row (List.mem_cons_self row rest), ih fun r hr => h r (List.mem_cons_of_mem row hr)]
    ring

theorem np_resize_length (flat : List Nat) (n : Nat) : (np_resize flat n).length = n := by
  simp [np_resize]

theorem np_resize_getD (flat : List Nat) (n k : Nat) (hk : k < n) :
    (np_resize flat n).getD k 0 = flat.getD (k % flat.length) 0 := by
  unfold np_resize
  rw [getD_map_lt _ _ k (by simpa using hk) 0 0]
  congr 1
  simp [List.getD_eq_getElem?_getD, List.getElem?_range hk]

theorem np_resize_channel (flat : List Nat) (hw ch k : Nat)
    (hflat : flat.length = hw) (hch : ch < 3) (hk : k < hw) :
    (np_resize flat (3 * hw)).getD (ch * hw + k) 0 = flat.getD k 0 := by
  have hlt : ch * hw + k < 3 * hw := by
    have h2 : ch * hw ≤ 2 * hw := Nat.mul_le_mul_right hw (by omega)
    omega
  rw [np_resize_getD flat (3 * hw) (ch * hw + k) hlt, hflat]
  rw [Nat.mul_comm ch hw, Nat.mul_add_mod hw ch k, Nat.mod_eq_of_lt hk]

theorem collectImages_map (h w : Nat) (g : PImg → List Nat) :
    ∀ (l : List PImg), (∀ img ∈ l, collateImage h w img = Except.ok (g img)) →
      collectImages h w l = Except.ok (l.map g) := by
  intro l
  induction l with
  | nil => intro _; rfl
  | cons img rest ih =>
    intro hall
    simp only [collectImages]
    rw [hall img (List.mem_cons_self img rest),
      ih fun x hx => hall x (List.mem_cons_of_mem img hx)]
    simp

theorem collateImage_gray (h w h2 w2 : Nat) (px : List (List Nat)) :
    collateImage h w (PImg.gray h2 w2 px)
      = Except.ok (np_resize (grayFlat px) (3 * (h * w))) := by
  rfl

/-- C5: a non-empty batch of single-channel images of equal dimensions h by
w collates without any assertion firing into one flat channel by height by
width block of length 3*h*w per image, in which each of the 3 channels
equals the original single channel. -/
theorem C5_collate_gray_batch (h w : Nat) (pxs : List (List (List Nat)))
    (hne : pxs ≠ [])
    (hdims : ∀ px ∈ pxs, px.length = h ∧ ∀ row ∈ px, row.length = w) :
    ∃ l, pil_image_collate (pxs.map (PImg.gray h w)) = Except.ok l ∧
      l.length = pxs.length ∧
      ∀ i, i < pxs.length →
        (l.getD i []).length = 3 * (h * w) ∧
        ∀ ch, ch < 3 → ∀ k, k < h * w →
          (l.getD i []).getD (ch * (h * w) + k) 0
            = (grayFlat (pxs.getD i [])).getD k 0 := by
  obtain ⟨px0, pxs', rfl⟩ : ∃ a l', pxs = a :: l' := by
    cases pxs with
    | nil => exact absurd rfl hne
    | cons a l' => exact ⟨a, l', rfl⟩
  refine ⟨((px0 :: pxs').map (PImg.gray h w)).map
    (fun img => np_resize (imgData img) (3 * (h * w))), ?_, ?_, ?_⟩
  · show collectImages h w ((px0 :: pxs').map (PImg.gray h w)) = _
    exact collectImages_map h w _ _ (by
      intro img hmem
      obtain ⟨px, _, rfl⟩ := List.mem_map.mp hmem
      exact collateImage_gray h w h w px)
  · simp
  · intro i hi
    have hmap : (((px0 :: pxs').map (PImg.gray h w)).map
        (fun img => np_resize (imgData img) (3 * (h * w)))).getD i []
        = np_resize (grayFlat ((px0 :: pxs').getD i [])) (3 * (h * w)) := by
      rw [List.map_map]
      rw [getD_map_lt _ _ i (by simpa using hi) [] []]
      rfl
    rw [hmap]
    have hmem : (px0 :: pxs').getD i [] ∈ px0 :: pxs' := by
      rw [List.getD_eq_getElem (px0 :: pxs') [] hi]
      exact List.getElem_mem hi
    have hflat : (grayFlat ((px0 :: pxs').getD i [])).length = h * w := by
      have hd := hdims _ hmem
      unfold grayFlat
      rw [flatten_length_of_uniform w _ hd.2, hd.1]
    constructor
    · rw [np_resize_length]
    · intro ch hch k hk
      exact np_resize_channel _ (h * w) ch k hflat hch hk

/-- C5 witness: the single-channel broadcast theorem evaluated at a batch of
one 1 by 1 grayscale image. -/
theorem C5_collate_gray_batch_witness :
    ∃ l, pil_image_collate ([[[5]]].map (PImg.gray 1 1)) = Except.ok l ∧
      l.length = [[[5]]].length ∧
      ∀ i, i < [[[5]]].length →
        (l.getD i []).length = 3 * (1 * 1) ∧
        ∀ ch, ch < 3 → ∀ k, k < 1 * 1 →
          (l.getD i []).getD (ch * (1 * 1) + k) 0
            = (grayFlat ([[[5]]].getD i [])).getD k 0 :=
  C5_collate_gray_batch 1 1 [[[5]]] (List.cons_ne_nil _ _) (by decide)

theorem collateImage_not_ok_iff (h w : Nat) (img : PImg) :
    isOkE (collateImage h w img) = false ↔
      (((imgShape img).1 ≠ 1 ∧ (imgShape img).1 ≠ 3) ∨
       ((imgShape img).1 = 3 ∧ ((imgShape img).2.1 ≠ h ∨ (imgShape img).2.2 ≠ w))) := by
  unfold collateImage
  simp only []
  split_ifs with h1 h2 h3 <;> simp [isOkE] <;> tauto

theorem collectImages_ok_iff (h w : Nat) :
    ∀ (l : List PImg), isOkE (collectImages h w l) = true ↔
      ∀ img ∈ l, isOkE (collateImage h w img) = true := by
  intro l
  induction l with
  | nil => simp [collectImages, isOkE]
  | cons img rest ih =>
    simp only [collectImages]
    cases hc : collateImage h w img with
    | error e => simp [isOkE, hc]
    | ok x =>
      cases hr : collectImages h w rest with
      | error e => simp [isOkE, hc, hr] at ih ⊢; tauto
      | ok xs => simp [isOkE, hc, hr] at ih ⊢; tauto

/-- C6 counterexample: a batch of two single-channel images whose dimensions
disagree (2 by 2 first, then 1 by 1).  The claim says a shape error is
raised; the code instead lets `np.resize` fill the slot cyclically and the
collation succeeds. -/
theorem C6_counterexample_gray_dims :
    pilSize (PImg.gray 1 1 [[9]]) ≠ pilSize (PImg.gray 2 2 [[1, 2], [3, 4]]) ∧
    isOkE (pil_image_collate
      [PImg.gray 2 2 [[1, 2], [3, 4]], PImg.gray 1 1 [[9]]]) = true := by decide

/-- C6 amended: an assertion-style shape error fires exactly when some image
has a channel count that is neither 1 nor 3, or some 3-channel image
disagrees with the first image in height or width; mismatched dimensions of
a single-channel image are silently absorbed by `np.resize` and raise
nothing. -/
theorem C6_amended_shape_error_iff (img0 : PImg) (rest : List PImg) :
    isOkE (pil_image_collate (img0 :: rest)) = false ↔
      ∃ img ∈ img0 :: rest,
        (((imgShape img).1 ≠ 1 ∧ (imgShape img).1 ≠ 3) ∨
         ((imgShape img).1 = 3 ∧
           ((imgShape img).2.1 ≠ (pilSize img0).2 ∨ (imgShape img).2.2 ≠ (pilSize img0).1))) := by
  have hpil : pil_image_collate (img0 :: rest)
      = collectImages (pilSize img0).2 (pilSize img0).1 (img0 :: rest) := rfl
  rw [hpil]
  rw [Bool.eq_false_iff, Ne, collectImages_ok_iff]
  push_neg
  simp only [Bool.not_eq_true]
  exact exists_congr fun img => and_congr_right fun _ =>
    collateImage_not_ok_iff (pilSize img0).2 (pilSize img0).1 img

/-! ### Theorems: the metadata reporter (claims C2, C7, C8, C9) -/


theorem globMatchL_star : ∀ (s : List Char), globMatchL ['*'] s = true := by
  intro s
  induction s with
  | nil => simp [globMatchL]
  | cons c s2 ih => simp [globMatchL, ih]

theorem globMatch_star (key : String) : globMatch "*" key = true := by
  unfold globMatch
  exact globMatchL_star key.data

/-- C7: for every metadata mapping and every ignore-list containing the
pattern star, the metric filter produces an empty result, so no key of the
mapping reaches the external registry. -/
theorem C7_star_filters_all (d : List (String × MVal)) (ignore : List String)
    (h : "*" ∈ ignore) : filterIgnored d ignore = [] := by
  unfold filterIgnored
  rw [List.filter_eq_nil_iff]
  intro kv _
  have hany : ignore.any (fun pat => globMatch pat kv.1) = true :=
    List.any_eq_true.mpr ⟨"*", h, globMatch_star kv.1⟩
  rw [hany]
  simp

/-- C7 witness: the star filter evaluated at a one-key mapping. -/
theorem C7_star_filters_all_witness :
    filterIgnored [("loss", MVal.num 1)] ["*"] = [] :=
  C7_star_filters_all [("loss", MVal.num 1)] ["*"] (List.mem_singleton.mpr rfl)

mutual

theorem formatVal_idem : ∀ (v : MVal), formatVal (formatVal v) = formatVal v
  | MVal.str s => by simp [formatVal]
  | MVal.num n => by simp [formatVal]
  | MVal.flag b => by simp [formatVal]
  | MVal.tensor sh => by simp [formatVal]
  | MVal.dict fs => by
    simp only [formatVal]
    exact congrArg MVal.dict (formatFields_idem fs)
  | MVal.arr l => by
    simp only [formatVal]
    exact congrArg MVal.arr (formatItems_idem l)

theorem formatFields_idem : ∀ (fs : MFields), formatFields (formatFields fs) = formatFields fs
  | MFields.nil => by simp [formatFields]
  | MFields.cons k v r => by
    simp only [formatFields]
    rw [formatVal_idem v, formatFields_idem r]

theorem formatItems_idem : ∀ (l : MList), formatItems (formatItems l) = formatItems l
  | MList.nil => by simp [formatItems]
  | MList.cons v r => by
    simp only [formatItems]
    rw [formatVal_idem v, formatItems_idem r]

end

/-- C8: the metadata formatter is idempotent, formatting a formatted mapping
yields it unchanged. -/
theorem C8_format_idempotent (d : MFields) :
    formatFields (formatFields d) = formatFields d :=
  formatFields_idem d

/-- C9: on a process of non-zero global rank, no reporting event of the run
ever changes the external registry, so the registry never records any
metadata originating from that process. -/
theorem C9_nonzero_rank_never_reports (rank : Nat)
    (events : List (List (String × MVal))) (registry : List (String × MVal))
    (h : rank ≠ 0) : runReports rank events registry = registry := by
  induction events generalizing registry with
  | nil => rfl
  | cons e es ih =>
    show runReports rank es (reportIfRankZero rank e registry) = registry
    rw [reportIfRankZero, if_neg h]
    exact ih registry

/-- C9 witness: a rank-one process reporting one event leaves an empty
registry empty. -/
theorem C9_nonzero_rank_never_reports_witness :
    runReports 1 [[("loss", MVal.num 1)]] [] = [] :=
  C9_nonzero_rank_never_reports 1 [[("loss", MVal.num 1)]] [] (by decide)

/-- C2 counterexample: at the observed timestamp of the epoch test (third
batch, first of the second epoch: batch 3, batch-in-epoch 1, epoch 1, with 2
batches per epoch), the sub-progress quantity (batch - batch_in_epoch) /
epoch IS the per-epoch batch count 2, so it cannot be strictly less than
that count as the claim states. -/
theorem C2_counterexample_sub_progress :
    sub_progress_value ⟨3, 1, 1⟩ = 2 ∧ ¬ sub_progress_value ⟨3, 1, 1⟩ < 2 := by decide

/-- C2 amended: when the configured duration unit is epoch a sub-progress
entry carrying (batch - batch_in_epoch) / epoch is reported; at any
mid-training point past the first epoch that quantity recovers the per-epoch
batch count, the batch-in-epoch position is strictly below it, and it is
strictly below the raw batch count. -/
theorem C2_epoch_sub_progress (ts : TrainTimestamp) (cur total bpe : Nat)
    (hep : 1 ≤ ts.epoch)
    (hbatch : ts.batch = ts.epoch * bpe + ts.batch_in_epoch)
    (hbie1 : 1 ≤ ts.batch_in_epoch)
    (hbie2 : ts.batch_in_epoch < bpe) :
    ("training_sub_progress", toString (sub_progress_value ts))
        ∈ training_progress_metrics ts ProgressUnit.epoch cur total ∧
    sub_progress_value ts = bpe ∧
    ts.batch_in_epoch < sub_progress_value ts ∧
    sub_progress_value ts < ts.batch := by
  have hval : sub_progress_value ts = bpe := by
    unfold sub_progress_value
    rw [hbatch, Nat.add_sub_cancel, Nat.mul_div_cancel_left bpe (by omega)]
  refine ⟨?_, hval, ?_, ?_⟩
  · simp [training_progress_metrics]
  · rw [hval]; exact hbie2
  · rw [hval, hbatch]
    have hle : bpe ≤ ts.epoch * bpe := Nat.le_mul_of_pos_left bpe (by omega)
    omega

/-- C2 witness: the epoch sub-progress theorem evaluated at the timestamp
the test observes (batch 3, batch-in-epoch 1, epoch 1, 2 batches per
epoch). -/
theorem C2_epoch_sub_progress_witness :
    ("training_sub_progress", toString (sub_progress_value ⟨3, 1, 1⟩))
        ∈ training_progress_metrics ⟨3, 1, 1⟩ ProgressUnit.epoch 2 2 ∧
    sub_progress_value ⟨3, 1, 1⟩ = 2 ∧
    (⟨3, 1, 1⟩ : TrainTimestamp).batch_in_epoch < sub_progress_value ⟨3, 1, 1⟩ ∧
    sub_progress_value ⟨3, 1, 1⟩ < (⟨3, 1, 1⟩ : TrainTimestamp).batch :=
  C2_epoch_sub_progress ⟨3, 1, 1⟩ 2 2 2 (by decide) (by decide) (by decide) (by decide)
